import Mathlib

/-!
Shallow embedding of the AttendPro attendance core: the attendance session
lifecycle in `finalizeAttendance` (AttendanceView), the identity verification
gate `verifyIdentityWithAI`, the persistence wrapper `db.upsert`, and the
auto clock-out reconciler `runAutoClockOutScrub` (App), together with proofs
of the specified properties.

Modelling conventions:
- JS numbers carrying coordinates and confidence scores are rationals.
- An instant (JS `Date`) is a calendar date string `YYYY-MM-DD` plus the
  milliseconds elapsed within that day, in a single implicit time zone
  (the source performs no time zone normalization).
- JS string comparison (`<` on `YYYY-MM-DD` strings) is code-unit
  lexicographic comparison, modelled structurally on the character list.
- External collaborators (geolocation, the Gemini comparison oracle, the
  `calculateDistance` helper from the geoService module, per-row update
  success) enter as explicit inputs of the embedded functions.
- The persistent `attendance` table is a list of records; `db.upsert`
  replaces the row with the same `id` or appends, and the reconciler's
  `update ... eq id` rewrites the rows with the matching `id` in place.
-/

namespace AttendPro

/-! ### Basic data model (types.ts) -/

inductive UserRole where
  | BOSS
  | MANAGER
  | EMPLOYEE
deriving DecidableEq

/-- JS code-unit lexicographic comparison of character lists. -/
def charListLt : List Char → List Char → Bool
  | [], [] => false
  | [], _ :: _ => true
  | _ :: _, [] => false
  | a :: as, b :: bs =>
    if a.toNat < b.toNat then true
    else if b.toNat < a.toNat then false
    else charListLt as bs

/-- JS `<` on strings (used by the reconciler on `YYYY-MM-DD` dates). -/
def strLt (a b : String) : Bool := charListLt a.data b.data

/-- An instant: the `YYYY-MM-DD` date it falls on plus milliseconds within
the day. This models a JS `Date` in the single implicit time zone the
source works in. -/
structure DateTime where
  date : String
  ms : Nat
deriving DecidableEq

/-- Chronological order on instants (dates in `YYYY-MM-DD` form compare
chronologically as strings). -/
def DateTime.lt (a b : DateTime) : Prop :=
  strLt a.date b.date = true ∨ (a.date = b.date ∧ a.ms < b.ms)

instance : LT DateTime := ⟨DateTime.lt⟩

instance (a b : DateTime) : Decidable (a < b) :=
  inferInstanceAs (Decidable (strLt a.date b.date = true ∨ (a.date = b.date ∧ a.ms < b.ms)))

structure User where
  id : String
  name : String
  role : UserRole
  managerId : Option String
deriving DecidableEq

structure SystemConfig where
  officialClockInTime : String
  officialClockOutTime : String
  companyName : String
deriving DecidableEq

structure Location where
  id : String
  name : String
  latitude : ℚ
  longitude : ℚ
  radius : ℚ
  createdBy : String
deriving DecidableEq

structure AttendanceRecord where
  id : String
  userId : String
  userName : String
  role : UserRole
  date : String
  clockIn : DateTime
  clockOut : Option DateTime
  latitude : ℚ
  longitude : ℚ
  selfieBase64 : String
  isLate : Bool
deriving DecidableEq

/-! ### Time-of-day parsing (`officialTime.split(':').map(Number)`) -/

/-- Split a character list at a separator character, like JS
`String.prototype.split` with a single-character separator. -/
def splitCh (c : Char) : List Char → List (List Char)
  | [] => [[]]
  | a :: rest =>
    let r := splitCh c rest
    if a = c then [] :: r
    else
      match r with
      | [] => [[a]]
      | g :: gs => (a :: g) :: gs

/-- Decimal value of one digit character. -/
def digitVal (c : Char) : Nat := c.toNat - 48

/-- `Number(...)` on a digit string. -/
def numOfChars (cs : List Char) : Nat := cs.foldl (fun n c => n * 10 + digitVal c) 0

/-- `const [h, m] = s.split(':').map(Number)` for an `HH:MM` string. -/
def parseHM (s : String) : Nat × Nat :=
  let parts := splitCh ':' s.data
  (numOfChars (parts.getD 0 []), numOfChars (parts.getD 1 []))

/-- Milliseconds within the day of `setHours(h, m, 0, 0)`. -/
def msOfTime (h m : Nat) : Nat := (h * 60 + m) * 60000

/-! ### Decimal rendering of `Date.now()` (JS template literals) -/

/-- Little-endian decimal digits of `n`; the fuel argument makes the
recursion structural (any fuel above `n` is enough). -/
def natDigitsRev (fuel n : Nat) : List Nat :=
  match fuel with
  | 0 => []
  | fuel + 1 => if n < 10 then [n] else n % 10 :: natDigitsRev fuel (n / 10)

/-- Decimal rendering of a natural number, as JS string interpolation
produces for an integer-valued number. -/
def natToString (n : Nat) : String :=
  String.mk (((natDigitsRev (n + 1) n).reverse).map Nat.digitChar)

/-! ### Identity Verification Gate (`verifyIdentityWithAI`) -/

/-- What the comparison oracle's JSON answer carries. -/
structure OracleResult where
  isMatch : Bool
  confidence : ℚ
deriving DecidableEq

structure VerifResult where
  isMatch : Bool
  confidence : ℚ
deriving DecidableEq

inductive ClockError where
  | biometricMismatch (confidence : ℚ)
  | verificationUnavailable
  | outsideGeofence
  | locationUnavailable
deriving DecidableEq

/-- JS `a || b` on numbers (used as `result.confidence || 0`). -/
def jsOr (a b : ℚ) : ℚ := if a = 0 then b else a

/-- `verifyIdentityWithAI`: with no enrolled master selfie (or during
enrollment) the gate passes with confidence 100; otherwise it consults the
external oracle (`none` models a failed oracle call, which the gate turns
into a fail-closed error). -/
def verifyIdentityWithAI (isEnrolling : Bool) (masterSelfie : Option String)
    (oracle : Option OracleResult) : Except ClockError VerifResult :=
  if isEnrolling || masterSelfie.isNone then .ok ⟨true, 100⟩
  else
    match oracle with
    | none => .error .verificationUnavailable
    | some result =>
      .ok ⟨result.isMatch && decide ((85 : ℚ) ≤ result.confidence),
           jsOr result.confidence 0⟩

/-! ### Attendance Session Manager (`finalizeAttendance`) -/

/-- All inputs of one `finalizeAttendance` invocation: component state
(`currentRecord`, `locations`, enrollment state), the call argument
`selfieBase64`, and the values the external collaborators return during
the call. `calculateDistance` is the geoService helper (its arguments are
`lat1 lon1 lat2 lon2`); `pos = none` models a failed position fix;
`oracle = none` a failed oracle call; `config = none` a missing
`system_config` row; `today` is the component's mount date and `now`,
`nowMs` the wall clock (`new Date()` / `Date.now()`) during the call. -/
structure Input where
  user : User
  locations : List Location
  currentRecord : Option AttendanceRecord
  isEnrolling : Bool
  masterSelfie : Option String
  selfieBase64 : String
  oracle : Option OracleResult
  config : Option SystemConfig
  pos : Option (ℚ × ℚ)
  calculateDistance : ℚ → ℚ → ℚ → ℚ → ℚ
  today : String
  now : DateTime
  nowMs : Nat

/-- Side effects `finalizeAttendance` sends to the backend. -/
inductive Effect where
  | updateProfileSelfie (userId selfie : String)
  | upsertAttendance (rec : AttendanceRecord)
  | upsertNotification (recipientId message : String) (timestamp : Nat)
deriving DecidableEq

instance {ε α : Type} [DecidableEq ε] [DecidableEq α] : DecidableEq (Except ε α) := fun a b =>
  match a, b with
  | .ok x, .ok y =>
    if h : x = y then .isTrue (by rw [h]) else .isFalse (by intro hc; cases hc; exact h rfl)
  | .error x, .error y =>
    if h : x = y then .isTrue (by rw [h]) else .isFalse (by intro hc; cases hc; exact h rfl)
  | .ok _, .error _ => .isFalse (by intro hc; cases hc)
  | .error _, .ok _ => .isFalse (by intro hc; cases hc)

structure FinalizeResult where
  result : Except ClockError AttendanceRecord
  effects : List Effect
deriving DecidableEq

/-- The verification prelude of `finalizeAttendance`: when a selfie was
captured, run the gate and reject a non-match. -/
def runVerification (i : Input) : Except ClockError (Option VerifResult) :=
  if i.selfieBase64 ≠ "" then
    match verifyIdentityWithAI i.isEnrolling i.masterSelfie i.oracle with
    | .error e => .error e
    | .ok v => if v.isMatch then .ok (some v) else .error (.biometricMismatch v.confidence)
  else .ok none

/-- The source's fallback when the `system_config` row is missing:
`{ officialClockInTime: '09:00' }` (the other fields are never read on
this path). -/
def fallbackConfig : SystemConfig :=
  { officialClockInTime := "09:00", officialClockOutTime := "", companyName := "" }

/-- The official clock-in instant of the current day:
`officialDate.setHours(officialH, officialM, 0, 0)` on `new Date()`. -/
def officialThreshold (i : Input) : DateTime :=
  let hm := parseHM (i.config.getD fallbackConfig).officialClockInTime
  ⟨i.now.date, msOfTime hm.1 hm.2⟩

/-- `isLate = now > officialDate && user.role === EMPLOYEE`. -/
def computedIsLate (i : Input) : Bool :=
  decide (officialThreshold i < i.now) && decide (i.user.role = UserRole.EMPLOYEE)

/-- The new OPEN record built on the clock-in path. -/
def createdRecord (i : Input) (p : ℚ × ℚ) : AttendanceRecord :=
  { id := "att_" ++ natToString i.nowMs
    userId := i.user.id
    userName := i.user.name
    role := i.user.role
    date := i.today
    clockIn := i.now
    clockOut := none
    latitude := p.1
    longitude := p.2
    selfieBase64 :=
      if i.selfieBase64 ≠ "" then i.selfieBase64 else "biometric_fingerprint_verified"
    isLate := computedIsLate i }

/-- The enrollment persist (`update({ profileSelfie })`) when this call
establishes the master profile. -/
def enrollEffectsOf (i : Input) : List Effect :=
  if i.isEnrolling && decide (i.selfieBase64 ≠ "") then
    [Effect.updateProfileSelfie i.user.id i.selfieBase64]
  else []

/-- The late-arrival notification to the manager (or `admin`). -/
def lateEffectsOf (i : Input) : List Effect :=
  if computedIsLate i then
    [Effect.upsertNotification (i.user.managerId.getD "admin")
      ("LATE ALERT: " ++ i.user.name) i.nowMs]
  else []

/-- `finalizeAttendance`: verification gate, config fetch (with fallback),
position fix, geofence check (employees only), then enrollment persist,
lateness check, and either creation of the day's record (clock-in) or the
clock-out update of `currentRecord`. Throws before its first write on
every failure path. -/
def finalizeAttendance (i : Input) : FinalizeResult :=
  match runVerification i with
  | .error e => ⟨.error e, []⟩
  | .ok _ =>
    match i.pos with
    | none => ⟨.error .locationUnavailable, []⟩
    | some p =>
      let matchedLoc := i.locations.find? fun loc =>
        decide (i.calculateDistance p.1 p.2 loc.latitude loc.longitude ≤ loc.radius)
      if matchedLoc.isNone && decide (i.user.role = UserRole.EMPLOYEE) then
        ⟨.error .outsideGeofence, []⟩
      else
        match i.currentRecord with
        | none =>
          ⟨.ok (createdRecord i p),
           enrollEffectsOf i ++ [Effect.upsertAttendance (createdRecord i p)] ++ lateEffectsOf i⟩
        | some cur =>
          ⟨.ok { cur with clockOut := some i.now },
           enrollEffectsOf i ++ [Effect.upsertAttendance { cur with clockOut := some i.now }]⟩

/-! ### Persistence collaborator (`db.upsert`) and the stored table -/

/-- The `attendance` table. -/
abbrev Store := List AttendanceRecord

/-- `db.upsert('attendance', rec)`: replace the row with the same primary
key `id`, or insert. -/
def upsert (store : Store) (rec : AttendanceRecord) : Store :=
  if store.any (fun r => decide (r.id = rec.id)) then
    store.map (fun r => if r.id = rec.id then rec else r)
  else store ++ [rec]

/-- Apply the attendance-table writes of a finished call to the store. -/
def applyEffects (store : Store) (effects : List Effect) : Store :=
  effects.foldl
    (fun st eff =>
      match eff with
      | .upsertAttendance rec => upsert st rec
      | _ => st)
    store

/-- The component's current-record query:
`eq('userId', user.id).eq('date', today)`. -/
def lookupToday (store : Store) (uid today : String) : Option AttendanceRecord :=
  store.find? fun r => decide (r.userId = uid) && decide (r.date = today)

/-- One whole clock-in/clock-out interaction against the live store: the
component loads `currentRecord` for `(user, today)`, runs
`finalizeAttendance`, and the backend applies its writes. -/
def clockInStep (e : Input) (store : Store) : Store :=
  applyEffects store
    (finalizeAttendance { e with currentRecord := lookupToday store e.user.id e.today }).effects

/-! ### Auto Clock-Out Reconciler (`runAutoClockOutScrub`) -/

/-- Environment of one reconciler sweep: the config row, the wall clock at
the sweep, and which per-row `update` calls the backend accepts (`updOk`
models per-record persistence failures, whose error result the source
discards). -/
structure ScrubEnv where
  config : Option SystemConfig
  now : DateTime
  updOk : AttendanceRecord → Bool

/-- The `' [AUTO_TERMINATED]'` suffix appended on forced closure. -/
def autoSuffix : String := " [AUTO_TERMINATED]"

/-- `shouldClose` of one loop iteration: the session is stale (dated
strictly before today) or is dated today with the wall clock past the
official clock-out cutoff. -/
def scrubShouldClose (e : ScrubEnv) (outH outM : Nat) (session : AttendanceRecord) : Bool :=
  strLt session.date e.now.date ||
    (decide (session.date = e.now.date) &&
      decide ((⟨e.now.date, msOfTime outH outM⟩ : DateTime) < e.now))

/-- `closeAt` of one loop iteration: the session's own date at the official
clock-out time when stale, today's cutoff instant otherwise. -/
def scrubCloseAt (e : ScrubEnv) (outH outM : Nat) (session : AttendanceRecord) : DateTime :=
  if strLt session.date e.now.date then ⟨session.date, msOfTime outH outM⟩
  else ⟨e.now.date, msOfTime outH outM⟩

/-- The `update({ clockOut, selfieBase64 })` payload applied to a row `r`
matching the snapshot session's id. -/
def scrubClose (e : ScrubEnv) (outH outM : Nat) (session r : AttendanceRecord) :
    AttendanceRecord :=
  { r with clockOut := some (scrubCloseAt e outH outM session),
           selfieBase64 := session.selfieBase64 ++ autoSuffix }

/-- One iteration of the sweep loop over the snapshot of open sessions:
decide staleness, compute the forced close instant, and rewrite the rows
with the session's `id` when the update succeeds. -/
def scrubIter (e : ScrubEnv) (outH outM : Nat) (st : Store) (session : AttendanceRecord) :
    Store :=
  if scrubShouldClose e outH outM session && e.updOk session then
    st.map fun r => if r.id = session.id then scrubClose e outH outM session r else r
  else st

/-- `runAutoClockOutScrub`: fetch the open sessions (`clockOut` null) and
force-close the eligible ones, session by session. A missing config row
makes the sweep return early. -/
def runAutoClockOutScrub (e : ScrubEnv) (store : Store) : Store :=
  match e.config with
  | none => store
  | some config =>
    let hm := parseHM config.officialClockOutTime
    let openSessions := store.filter fun r => r.clockOut.isNone
    openSessions.foldl (scrubIter e hm.1 hm.2) store

/-- The per-record outcome of one sweep: an open, eligible session whose
update succeeds is force-closed; everything else is untouched. -/
def scrubAction (e : ScrubEnv) (r : AttendanceRecord) : AttendanceRecord :=
  match e.config with
  | none => r
  | some config =>
    let hm := parseHM config.officialClockOutTime
    if r.clockOut.isNone && scrubShouldClose e hm.1 hm.2 r && e.updOk r then
      scrubClose e hm.1 hm.2 r r
    else r

/-! ### Reachable stores and the per-user-per-date invariant -/

/-- Number of rows for one `(userId, date)` pair. -/
def countUserDate (store : Store) (uid date : String) : Nat :=
  store.countP fun r => decide (r.userId = uid) && decide (r.date = date)

/-- Row ids are pairwise distinct. -/
abbrev NodupIds (store : Store) : Prop := (store.map (fun r => r.id)).Nodup

/-- Stores the core can produce: starting empty, any interleaving of user
clock-in/clock-out interactions and reconciler sweeps. -/
inductive Reachable : Store → Prop where
  | init : Reachable []
  | clockIn (e : Input) {s : Store} : Reachable s → Reachable (clockInStep e s)
  | scrub (e : ScrubEnv) {s : Store} : Reachable s → Reachable (runAutoClockOutScrub e s)

end AttendPro


namespace AttendPro

/-! ### Witness fixtures: a concrete zone, users, config, and inputs -/

/-- A concrete geofence zone. -/
def zoneA : Location :=
  { id := "loc1", name := "HQ", latitude := 10, longitude := 20, radius := 100,
    createdBy := "admin" }

/-- A concrete employee. -/
def empUser : User := { id := "u1", name := "Alice", role := .EMPLOYEE, managerId := some "m1" }

/-- A concrete manager (a privileged, non-employee role). -/
def bossUser : User := { id := "b1", name := "Bob", role := .BOSS, managerId := none }

/-- The concrete global configuration row. -/
def cfgA : SystemConfig :=
  { officialClockInTime := "09:00", officialClockOutTime := "18:00", companyName := "AttendPro" }

/-- A concrete clock-in invocation: employee, inside `zoneA`, fingerprint
path (no selfie), one second past the official clock-in time. -/
def baseInput : Input :=
  { user := empUser
    locations := [zoneA]
    currentRecord := none
    isEnrolling := false
    masterSelfie := some "master"
    selfieBase64 := ""
    oracle := none
    config := some cfgA
    pos := some (10, 20)
    calculateDistance := fun _ _ _ _ => 0
    today := "2024-03-11"
    now := ⟨"2024-03-11", msOfTime 9 0 + 1000⟩
    nowMs := 1710150001000 }

/-! ### Helper lemmas: string order and instants -/

theorem charListLt_self (l : List Char) : charListLt l l = false := by
  induction l with
  | nil => rfl
  | cons a as ih => simp [charListLt, ih]

@[simp] theorem strLt_self (s : String) : strLt s s = false := charListLt_self s.data

theorem strLt_ne {a b : String} (h : strLt a b = true) : a ≠ b := by
  intro hc
  rw [hc, strLt_self] at h
  exact Bool.false_ne_true h

theorem DateTime.lt_def {a b : DateTime} :
    a < b ↔ (strLt a.date b.date = true ∨ (a.date = b.date ∧ a.ms < b.ms)) := Iff.rfl

theorem DateTime.mk_lt_mk_same {d : String} {m₁ m₂ : Nat} :
    ((⟨d, m₁⟩ : DateTime) < ⟨d, m₂⟩) ↔ m₁ < m₂ := by
  simp [DateTime.lt_def]

/-- `parseHM` on the concrete official times. -/
theorem parseHM_nine : parseHM "09:00" = (9, 0) := by decide

theorem parseHM_eighteen : parseHM "18:00" = (18, 0) := by decide

/-! ### C4: the verification threshold -/

theorem verifyIdentity_enrolled (master : String) (o : Option OracleResult) :
    verifyIdentityWithAI false (some master) o =
      match o with
      | none => .error .verificationUnavailable
      | some result =>
        .ok ⟨result.isMatch && decide ((85 : ℚ) ≤ result.confidence),
             jsOr result.confidence 0⟩ := by
  simp [verifyIdentityWithAI]

/-- C4. With an enrolled master artifact, the gate's `isMatch` verdict (the
bit the caller accepts or rejects on) is exactly `oracle match ∧ confidence
≥ 85`: in particular `(true, 85)` passes, `(true, 84)` fails, and
`(false, c)` fails for every confidence `c`. -/
theorem verification_threshold (master : String) (r : OracleResult) (c : ℚ) :
    (verifyIdentityWithAI false (some master) (some r) =
      .ok ⟨r.isMatch && decide ((85 : ℚ) ≤ r.confidence), jsOr r.confidence 0⟩)
    ∧ verifyIdentityWithAI false (some master) (some ⟨true, 85⟩) = .ok ⟨true, 85⟩
    ∧ verifyIdentityWithAI false (some master) (some ⟨true, 84⟩) = .ok ⟨false, 84⟩
    ∧ ∃ v, verifyIdentityWithAI false (some master) (some ⟨false, c⟩) = .ok v ∧
        v.isMatch = false := by
  refine ⟨verifyIdentity_enrolled master (some r), ?_, ?_, ?_⟩
  · rw [verifyIdentity_enrolled]
    norm_num [jsOr]
  · rw [verifyIdentity_enrolled]
    norm_num [jsOr]
  · exact ⟨_, verifyIdentity_enrolled master (some ⟨false, c⟩), by simp⟩

end AttendPro

namespace AttendPro

/-! ### Reduction lemmas for `finalizeAttendance` -/

theorem runVerification_noSelfie {i : Input} (h : i.selfieBase64 = "") :
    runVerification i = .ok none := by
  simp [runVerification, h]

theorem finalize_create {i : Input} {v : Option VerifResult} {p : ℚ × ℚ}
    (hv : runVerification i = .ok v) (hpos : i.pos = some p)
    (hguard : ((i.locations.find? fun loc =>
        decide (i.calculateDistance p.1 p.2 loc.latitude loc.longitude ≤ loc.radius)).isNone
        && decide (i.user.role = UserRole.EMPLOYEE)) = false)
    (hcur : i.currentRecord = none) :
    finalizeAttendance i =
      ⟨.ok (createdRecord i p),
       enrollEffectsOf i ++ [Effect.upsertAttendance (createdRecord i p)] ++ lateEffectsOf i⟩ := by
  simp [finalizeAttendance, hv, hpos, hguard, hcur]

theorem finalize_update {i : Input} {v : Option VerifResult} {p : ℚ × ℚ}
    {cur : AttendanceRecord}
    (hv : runVerification i = .ok v) (hpos : i.pos = some p)
    (hguard : ((i.locations.find? fun loc =>
        decide (i.calculateDistance p.1 p.2 loc.latitude loc.longitude ≤ loc.radius)).isNone
        && decide (i.user.role = UserRole.EMPLOYEE)) = false)
    (hcur : i.currentRecord = some cur) :
    finalizeAttendance i =
      ⟨.ok { cur with clockOut := some i.now },
       enrollEffectsOf i ++ [Effect.upsertAttendance { cur with clockOut := some i.now }]⟩ := by
  simp [finalizeAttendance, hv, hpos, hguard, hcur]

end AttendPro

namespace AttendPro

/-! ### C6: lateness determinism -/

/-- C6. For an employee with `officialClockInTime = "09:00"`, clocking in
(fingerprint path, inside a zone, no record yet for the day), the created
record's `isLate` flag is `true` at 09:00:01 local, `false` at exactly
09:00:00, and `false` at 08:59:59, on any date `d`. -/
theorem lateness_determinism (i : Input) (cfg : SystemConfig) (p : ℚ × ℚ) (d : String)
    (hrole : i.user.role = .EMPLOYEE)
    (hcfg : i.config = some cfg)
    (htime : cfg.officialClockInTime = "09:00")
    (hselfie : i.selfieBase64 = "")
    (hpos : i.pos = some p)
    (hzone : (i.locations.find? fun loc =>
        decide (i.calculateDistance p.1 p.2 loc.latitude loc.longitude ≤ loc.radius)).isSome)
    (hcur : i.currentRecord = none) :
    (∃ r, (finalizeAttendance { i with now := ⟨d, 32401000⟩ }).result = .ok r ∧ r.isLate = true)
    ∧ (∃ r, (finalizeAttendance { i with now := ⟨d, 32400000⟩ }).result = .ok r ∧
        r.isLate = false)
    ∧ (∃ r, (finalizeAttendance { i with now := ⟨d, 32399000⟩ }).result = .ok r ∧
        r.isLate = false) := by
  rcases Option.isSome_iff_exists.1 hzone with ⟨loc, hfind⟩
  have hguard : ∀ t : DateTime,
      (((({ i with now := t } : Input).locations.find? fun l =>
          decide (({ i with now := t } : Input).calculateDistance p.1 p.2
            l.latitude l.longitude ≤ l.radius)).isNone
        && decide (({ i with now := t } : Input).user.role = UserRole.EMPLOYEE)) = false) := by
    intro t
    simp [hfind]
  have hv : ∀ t : DateTime, runVerification { i with now := t } = .ok none := by
    intro t
    exact runVerification_noSelfie hselfie
  have hlate : ∀ t : DateTime, computedIsLate { i with now := t } =
      decide ((⟨t.date, 32400000⟩ : DateTime) < t) := by
    intro t
    simp [computedIsLate, officialThreshold, hcfg, htime, parseHM_nine, msOfTime, hrole]
  refine ⟨⟨createdRecord { i with now := ⟨d, 32401000⟩ } p, ?_, ?_⟩,
          ⟨createdRecord { i with now := ⟨d, 32400000⟩ } p, ?_, ?_⟩,
          ⟨createdRecord { i with now := ⟨d, 32399000⟩ } p, ?_, ?_⟩⟩
  · rw [finalize_create (hv _) (by simp [hpos]) (hguard _) (by simp [hcur])]
  · show computedIsLate _ = true
    rw [hlate]
    simp [DateTime.mk_lt_mk_same]
  · rw [finalize_create (hv _) (by simp [hpos]) (hguard _) (by simp [hcur])]
  · show computedIsLate _ = false
    rw [hlate]
    simp [DateTime.mk_lt_mk_same]
  · rw [finalize_create (hv _) (by simp [hpos]) (hguard _) (by simp [hcur])]
  · show computedIsLate _ = false
    rw [hlate]
    simp [DateTime.mk_lt_mk_same]

/-- Witness for C6 at the concrete `baseInput`. -/
theorem lateness_determinism_witness :
    (∃ r, (finalizeAttendance { baseInput with now := ⟨"2024-03-11", 32401000⟩ }).result = .ok r ∧
        r.isLate = true)
    ∧ (∃ r, (finalizeAttendance { baseInput with now := ⟨"2024-03-11", 32400000⟩ }).result =
        .ok r ∧ r.isLate = false)
    ∧ (∃ r, (finalizeAttendance { baseInput with now := ⟨"2024-03-11", 32399000⟩ }).result =
        .ok r ∧ r.isLate = false) :=
  lateness_determinism baseInput cfgA (10, 20) "2024-03-11" rfl rfl rfl rfl rfl
    (by decide) rfl

end AttendPro

namespace AttendPro

theorem finalize_geoError {i : Input} {v : Option VerifResult} {p : ℚ × ℚ}
    (hv : runVerification i = .ok v) (hpos : i.pos = some p)
    (hguard : ((i.locations.find? fun loc =>
        decide (i.calculateDistance p.1 p.2 loc.latitude loc.longitude ≤ loc.radius)).isNone
        && decide (i.user.role = UserRole.EMPLOYEE)) = true) :
    finalizeAttendance i = ⟨.error .outsideGeofence, []⟩ := by
  simp only [finalizeAttendance, hv, hpos, hguard, if_true]

/-! ### C3: the geofence gate -/

/-- C3. When the verification step has passed and a position was obtained,
`finalizeAttendance` fails with the outside-geofence error exactly when the
caller is an EMPLOYEE and no configured zone contains the position; and a
privileged (non-employee) caller clocking in outside every zone succeeds
with `isLate = false`. -/
theorem geofence_gate (i : Input) (v : Option VerifResult) (p : ℚ × ℚ)
    (hv : runVerification i = .ok v) (hpos : i.pos = some p) :
    ((finalizeAttendance i).result = .error .outsideGeofence ↔
      (i.user.role = .EMPLOYEE ∧ ∀ loc ∈ i.locations,
        ¬ i.calculateDistance p.1 p.2 loc.latitude loc.longitude ≤ loc.radius))
    ∧ (i.user.role ≠ .EMPLOYEE →
      (∀ loc ∈ i.locations,
        ¬ i.calculateDistance p.1 p.2 loc.latitude loc.longitude ≤ loc.radius) →
      i.currentRecord = none →
      ∃ r, (finalizeAttendance i).result = .ok r ∧ r.isLate = false) := by
  rcases hfind : i.locations.find? fun loc =>
      decide (i.calculateDistance p.1 p.2 loc.latitude loc.longitude ≤ loc.radius) with _ | loc
  · rcases hrole : decide (i.user.role = UserRole.EMPLOYEE) with _ | _
    · have hrole' : ¬ i.user.role = UserRole.EMPLOYEE := of_decide_eq_false hrole
      have hguard : ((i.locations.find? fun loc =>
          decide (i.calculateDistance p.1 p.2 loc.latitude loc.longitude ≤ loc.radius)).isNone
          && decide (i.user.role = UserRole.EMPLOYEE)) = false := by
        simp [hfind, hrole]
      constructor
      · constructor
        · intro habs
          exfalso
          rcases hcur : i.currentRecord with _ | cur
          · rw [finalize_create hv hpos hguard hcur] at habs
            exact Except.noConfusion habs
          · rw [finalize_update hv hpos hguard hcur] at habs
            exact Except.noConfusion habs
        · intro ⟨h1, _⟩
          exact absurd h1 hrole'
      · intro _ _ hcur
        refine ⟨createdRecord i p, ?_, ?_⟩
        · rw [finalize_create hv hpos hguard hcur]
        · show computedIsLate i = false
          simp [computedIsLate, hrole]
    · have hrole' : i.user.role = UserRole.EMPLOYEE := of_decide_eq_true hrole
      have hguard : ((i.locations.find? fun loc =>
          decide (i.calculateDistance p.1 p.2 loc.latitude loc.longitude ≤ loc.radius)).isNone
          && decide (i.user.role = UserRole.EMPLOYEE)) = true := by
        simp [hfind, hrole]
      rw [finalize_geoError hv hpos hguard]
      constructor
      · constructor
        · intro _
          refine ⟨hrole', fun loc hmem => ?_⟩
          have := List.find?_eq_none.1 hfind loc hmem
          simpa using this
        · intro _
          rfl
      · intro hne
        exact absurd hrole' hne
  · have hmem := List.mem_of_find?_eq_some hfind
    have hdist : i.calculateDistance p.1 p.2 loc.latitude loc.longitude ≤ loc.radius := by
      have := List.find?_some hfind
      simpa using this
    have hguard : ((i.locations.find? fun loc =>
        decide (i.calculateDistance p.1 p.2 loc.latitude loc.longitude ≤ loc.radius)).isNone
        && decide (i.user.role = UserRole.EMPLOYEE)) = false := by
      simp [hfind]
    constructor
    · constructor
      · intro habs
        exfalso
        rcases hcur : i.currentRecord with _ | cur
        · rw [finalize_create hv hpos hguard hcur] at habs
          exact Except.noConfusion habs
        · rw [finalize_update hv hpos hguard hcur] at habs
          exact Except.noConfusion habs
      · intro ⟨_, hall⟩
        exact absurd hdist (hall loc hmem)
    · intro _ hall _
      exact absurd hdist (hall loc hmem)

/-- Input with no configured zones (employee). -/
def noZonesInput : Input := { baseInput with locations := [] }

/-- Privileged caller far outside every zone. -/
def bossOutsideInput : Input :=
  { baseInput with
    user := bossUser
    locations := [zoneA]
    calculateDistance := fun _ _ _ _ => 1000000 }

/-- Witness for C3: the employee `noZonesInput` (its iff holds, and its
left side actually fires), and the privileged `bossOutsideInput` outside
every zone succeeds with `isLate = false`. -/
theorem geofence_gate_witness :
    ((finalizeAttendance noZonesInput).result = .error .outsideGeofence
      ↔ (noZonesInput.user.role = .EMPLOYEE ∧
          ∀ loc ∈ noZonesInput.locations,
            ¬ noZonesInput.calculateDistance 10 20 loc.latitude loc.longitude ≤ loc.radius))
    ∧ (∃ r, (finalizeAttendance bossOutsideInput).result = .ok r ∧ r.isLate = false) :=
  ⟨(geofence_gate noZonesInput none (10, 20) (runVerification_noSelfie rfl) rfl).1,
   (geofence_gate bossOutsideInput none (10, 20) (runVerification_noSelfie rfl) rfl).2
     (by decide) (by decide) rfl⟩

end AttendPro

namespace AttendPro

/-! ### C5: zero side effects on failure -/

/-- C5. Every failing `finalizeAttendance` invocation (identity check,
geofence check, or position fix) performs no writes at all: its effect
list is empty, so no record is created or mutated, the stored table is
unchanged, and no notification is enqueued. -/
theorem no_effects_on_failure (i : Input) (e : ClockError)
    (h : (finalizeAttendance i).result = .error e) :
    (finalizeAttendance i).effects = [] ∧
      ∀ s : Store, applyEffects s (finalizeAttendance i).effects = s := by
  have heff : (finalizeAttendance i).effects = [] := by
    rcases hrv : runVerification i with e0 | v
    · simp [finalizeAttendance, hrv]
    · rcases hpos : i.pos with _ | p
      · simp [finalizeAttendance, hrv, hpos]
      · rcases hguard : ((i.locations.find? fun loc =>
            decide (i.calculateDistance p.1 p.2 loc.latitude loc.longitude ≤ loc.radius)).isNone
            && decide (i.user.role = UserRole.EMPLOYEE)) with _ | _
        · exfalso
          rcases hcur : i.currentRecord with _ | cur
          · rw [finalize_create hrv hpos hguard hcur] at h
            exact Except.noConfusion h
          · rw [finalize_update hrv hpos hguard hcur] at h
            exact Except.noConfusion h
        · rw [finalize_geoError hrv hpos hguard]
  refine ⟨heff, fun s => ?_⟩
  rw [heff]
  rfl

/-- Witness for C5: the concrete rejected clock-in `noZonesInput` reaches
the outside-geofence error with an empty effect list. -/
theorem no_effects_on_failure_witness :
    (finalizeAttendance noZonesInput).effects = [] ∧
      ∀ s : Store, applyEffects s (finalizeAttendance noZonesInput).effects = s :=
  no_effects_on_failure noZonesInput .outsideGeofence (by decide)

end AttendPro

namespace AttendPro

/-! ### Characterizing one reconciler sweep -/

theorem scrubClose_id (e : ScrubEnv) (outH outM : Nat) (s r : AttendanceRecord) :
    (scrubClose e outH outM s r).id = r.id := rfl

theorem nodupIds_inj {store : Store} (hnd : NodupIds store) :
    ∀ r ∈ store, ∀ s ∈ store, r.id = s.id → r = s :=
  fun _ hr _ hs h => List.inj_on_of_nodup_map hnd hr hs h

/-- The sweep loop, run over an arbitrary snapshot `todo` whose ids are
distinct and agree with the table rows, acts on each row independently. -/
theorem scrub_foldl (e : ScrubEnv) (outH outM : Nat) :
    ∀ (todo st : List AttendanceRecord),
      (todo.map (fun r => r.id)).Nodup →
      (∀ s ∈ todo, ∀ r ∈ st, r.id = s.id → r = s) →
      todo.foldl (scrubIter e outH outM) st =
        st.map (fun r =>
          if todo.any (fun s => decide (s.id = r.id)) && scrubShouldClose e outH outM r
              && e.updOk r then
            scrubClose e outH outM r r
          else r) := by
  intro todo
  induction todo with
  | nil =>
    intro st _ _
    simp
  | cons s todo ih =>
    intro st hnd hcompat
    have hs_notin : ∀ s2 ∈ todo, ¬ s2.id = s.id := by
      intro s2 hs2 hc
      have := (List.nodup_cons.1 hnd).1
      exact this (by
        have : s2.id ∈ todo.map (fun r => r.id) := List.mem_map_of_mem _ hs2
        rwa [hc] at this)
    have hnd_todo : (todo.map (fun r => r.id)).Nodup := (List.nodup_cons.1 hnd).2
    have hid_s : ∀ r ∈ st, r.id = s.id → r = s := hcompat s (List.mem_cons_self s todo)
    rw [List.foldl_cons]
    rcases hgate : scrubShouldClose e outH outM s && e.updOk s with _ | _
    · have hstep : scrubIter e outH outM st s = st := by
        simp [scrubIter, hgate]
      rw [hstep, ih st hnd_todo (fun s2 hs2 => hcompat s2 (List.mem_cons_of_mem s hs2))]
      apply List.map_congr_left
      intro r hr
      rcases hrid : decide (s.id = r.id) with _ | _
      · simp [List.any_cons, hrid]
      · have hr_eq : r = s := hid_s r hr (of_decide_eq_true hrid).symm
        subst hr_eq
        have hany : todo.any (fun s2 => decide (s2.id = r.id)) = false := by
          rcases h2 : todo.any (fun s2 => decide (s2.id = r.id)) with _ | _
          · rfl
          · exfalso
            rcases List.any_eq_true.1 h2 with ⟨s2, hs2, hs2id⟩
            exact hs_notin s2 hs2 (of_decide_eq_true hs2id)
        simp [List.any_cons, hrid, hany, hgate]
    · have hstep : scrubIter e outH outM st s =
          st.map fun r => if r.id = s.id then scrubClose e outH outM s r else r := by
        simp [scrubIter, hgate]
      have hcompat2 : ∀ s2 ∈ todo, ∀ r2 ∈ scrubIter e outH outM st s, r2.id = s2.id → r2 = s2 := by
        rw [hstep]
        intro s2 hs2 r2 hr2 hid2
        rcases List.mem_map.1 hr2 with ⟨r, hr, hrdef⟩
        by_cases hc : r.id = s.id
        · rw [← hrdef] at hid2
          simp only [hc, if_pos] at hrdef hid2
          rw [scrubClose_id] at hid2
          exact absurd (hc ▸ hid2 : s.id = s2.id).symm (hs_notin s2 hs2)
        · simp only [hc, if_neg, if_false] at hrdef
          rw [← hrdef]
          exact hcompat s2 (List.mem_cons_of_mem s hs2) r hr (hrdef ▸ hid2)
      rw [ih (scrubIter e outH outM st s) hnd_todo hcompat2, hstep, List.map_map]
      apply List.map_congr_left
      intro r hr
      show (if todo.any (fun s2 => decide (s2.id = (if r.id = s.id then
          scrubClose e outH outM s r else r).id)) && _ && _ then _ else _) = _
      by_cases hc : r.id = s.id
      · have hr_eq : r = s := hid_s r hr hc
        subst hr_eq
        have hany : todo.any (fun s2 => decide (s2.id = r.id)) = false := by
          rcases h2 : todo.any (fun s2 => decide (s2.id = r.id)) with _ | _
          · rfl
          · exfalso
            rcases List.any_eq_true.1 h2 with ⟨s2, hs2, hs2id⟩
            exact hs_notin s2 hs2 (of_decide_eq_true hs2id)
        simp [List.any_cons, scrubClose_id, hany, hgate]
      · have hrid : decide (s.id = r.id) = false := by
          simp
          intro hc2
          exact absurd hc2.symm hc
        simp [hc, List.any_cons, hrid]

end AttendPro

namespace AttendPro

/-- A sweep with pairwise-distinct row ids closes each open, eligible row
whose update succeeds, and leaves every other row untouched. -/
theorem runScrub_eq_map (e : ScrubEnv) (store : Store) (hnd : NodupIds store) :
    runAutoClockOutScrub e store = store.map (scrubAction e) := by
  rcases hcfg : e.config with _ | config
  · have hid : store.map (scrubAction e) = store.map (fun r => r) :=
      List.map_congr_left fun r _ => by simp [scrubAction, hcfg]
    simp [runAutoClockOutScrub, hcfg, hid]
  · have hinj := nodupIds_inj hnd
    have hnd_todo : ((store.filter fun r => r.clockOut.isNone).map (fun r => r.id)).Nodup :=
      List.Nodup.sublist (List.Sublist.map _ (List.filter_sublist store)) hnd
    have hcompat : ∀ s ∈ store.filter (fun r => r.clockOut.isNone),
        ∀ r ∈ store, r.id = s.id → r = s := by
      intro s hs r hr hid
      exact hinj r hr s (List.mem_of_mem_filter hs) hid
    simp only [runAutoClockOutScrub, hcfg]
    rw [scrub_foldl e _ _ _ store hnd_todo hcompat]
    apply List.map_congr_left
    intro r hr
    have hany : (store.filter fun r2 => r2.clockOut.isNone).any
        (fun s => decide (s.id = r.id)) = r.clockOut.isNone := by
      rcases hopen : r.clockOut.isNone with _ | _
      · rcases h2 : (store.filter fun r2 => r2.clockOut.isNone).any
            (fun s => decide (s.id = r.id)) with _ | _
        · exact h2
        · exfalso
          rcases List.any_eq_true.1 h2 with ⟨s, hs, hsid⟩
          have hs_eq : s = r :=
            hinj s (List.mem_of_mem_filter hs) r hr (of_decide_eq_true hsid)
          have : s.clockOut.isNone := (List.mem_filter.1 hs).2
          rw [hs_eq, hopen] at this
          exact Bool.noConfusion this
      · apply List.any_eq_true.2
        exact ⟨r, List.mem_filter.2 ⟨hr, hopen⟩, by simp⟩
    rw [hany, scrubAction, hcfg]

end AttendPro

namespace AttendPro

theorem scrubAction_id (e : ScrubEnv) (r : AttendanceRecord) :
    (scrubAction e r).id = r.id := by
  rcases he : e.config with _ | c
  · simp [scrubAction, he]
  · simp only [scrubAction, he]
    split
    · rfl
    · rfl

theorem scrubAction_closed (e : ScrubEnv) (r : AttendanceRecord) (c : DateTime)
    (h : r.clockOut = some c) : scrubAction e r = r := by
  rcases he : e.config with _ | cfg
  · simp [scrubAction, he]
  · simp [scrubAction, he, h]

theorem scrubAction_idem (e : ScrubEnv) (r : AttendanceRecord) :
    scrubAction e (scrubAction e r) = scrubAction e r := by
  rcases he : e.config with _ | cfg
  · simp [scrubAction, he]
  · rcases hgate : (r.clockOut.isNone
        && scrubShouldClose e (parseHM cfg.officialClockOutTime).1
          (parseHM cfg.officialClockOutTime).2 r
        && e.updOk r) with _ | _
    · have hfix : scrubAction e r = r := by
        simp only [scrubAction, he]
        rw [hgate]
        rfl
      rw [hfix, hfix]
    · have hclosed : scrubAction e r = scrubClose e (parseHM cfg.officialClockOutTime).1
          (parseHM cfg.officialClockOutTime).2 r r := by
        simp only [scrubAction, he]
        rw [hgate]
        rfl
      rw [hclosed]
      exact scrubAction_closed e _ _ rfl

theorem nodupIds_scrub (e : ScrubEnv) (store : Store) (hnd : NodupIds store) :
    NodupIds (store.map (scrubAction e)) := by
  show (List.map (fun r => r.id) (store.map (scrubAction e))).Nodup
  rw [List.map_map]
  have : store.map ((fun r => r.id) ∘ scrubAction e) = store.map (fun r => r.id) :=
    List.map_congr_left fun r _ => scrubAction_id e r
  rw [this]
  exact hnd

/-! ### C9: reconciler idempotence -/

/-- C9. On a table with pairwise-distinct row ids, running the reconciler
sweep twice in succession (same config, same wall clock) produces exactly
the state of running it once: the second sweep skips everything the first
one closed, because it only selects rows with `clockOut` unset. -/
theorem reconciler_idempotent (e : ScrubEnv) (store : Store) (hnd : NodupIds store) :
    runAutoClockOutScrub e (runAutoClockOutScrub e store) = runAutoClockOutScrub e store := by
  rw [runScrub_eq_map e store hnd, runScrub_eq_map e _ (nodupIds_scrub e store hnd),
    List.map_map]
  exact List.map_congr_left fun r _ => scrubAction_idem e r

/-- A concrete open stale record. -/
def staleRec : AttendanceRecord :=
  { id := "att_1", userId := "u1", userName := "Alice", role := .EMPLOYEE,
    date := "2024-03-09", clockIn := ⟨"2024-03-09", 30000000⟩, clockOut := none,
    latitude := 10, longitude := 20, selfieBase64 := "img", isLate := false }

/-- A concrete already-closed record. -/
def closedRec : AttendanceRecord :=
  { id := "att_2", userId := "u2", userName := "Carol", role := .EMPLOYEE,
    date := "2024-03-11", clockIn := ⟨"2024-03-11", 30000000⟩,
    clockOut := some ⟨"2024-03-11", 61200000⟩,
    latitude := 10, longitude := 20, selfieBase64 := "img2", isLate := false }

/-- A concrete sweep environment: config present, sweeping on 2024-03-11
at 19:00, every row update accepted. -/
def scrubEnvA : ScrubEnv :=
  { config := some cfgA, now := ⟨"2024-03-11", 68400000⟩, updOk := fun _ => true }

/-- Witness for C9 on a concrete two-row table. -/
theorem reconciler_idempotent_witness :
    runAutoClockOutScrub scrubEnvA (runAutoClockOutScrub scrubEnvA [staleRec, closedRec]) =
      runAutoClockOutScrub scrubEnvA [staleRec, closedRec] :=
  reconciler_idempotent scrubEnvA [staleRec, closedRec] (by decide)

/-! ### C7: stale-day reconstruction -/

/-- C7. A sweep over a table with distinct row ids force-closes every open
record dated strictly before the sweep's current date, with `clockOut` set
to the record's own date at the official clock-out time 18:00 — an instant
distinct from the sweep's own wall clock. -/
theorem stale_reconstruction (e : ScrubEnv) (config : SystemConfig) (store : Store)
    (r : AttendanceRecord)
    (hnd : NodupIds store) (hcfg : e.config = some config)
    (hout : config.officialClockOutTime = "18:00")
    (hmem : r ∈ store) (hopen : r.clockOut = none)
    (hstale : strLt r.date e.now.date = true)
    (hupd : e.updOk r = true) :
    { r with clockOut := some ⟨r.date, 64800000⟩,
             selfieBase64 := r.selfieBase64 ++ autoSuffix } ∈ runAutoClockOutScrub e store
    ∧ (⟨r.date, 64800000⟩ : DateTime) ≠ e.now := by
  constructor
  · rw [runScrub_eq_map e store hnd]
    have hact : scrubAction e r =
        { r with clockOut := some ⟨r.date, 64800000⟩,
                 selfieBase64 := r.selfieBase64 ++ autoSuffix } := by
      simp [scrubAction, hcfg, hout, parseHM_eighteen, hopen, hstale, hupd,
        scrubShouldClose, scrubClose, scrubCloseAt, msOfTime]
    rw [← hact]
    exact List.mem_map_of_mem (scrubAction e) hmem
  · intro hc
    have hdate : r.date = e.now.date := congrArg DateTime.date hc
    exact strLt_ne hstale hdate

/-- Witness for C7: the stale record of the concrete table is closed at
its own date, 18:00. -/
theorem stale_reconstruction_witness :
    { staleRec with clockOut := some ⟨staleRec.date, 64800000⟩,
                     selfieBase64 := staleRec.selfieBase64 ++ autoSuffix } ∈
      runAutoClockOutScrub scrubEnvA [staleRec, closedRec]
    ∧ (⟨staleRec.date, 64800000⟩ : DateTime) ≠ scrubEnvA.now :=
  stale_reconstruction scrubEnvA cfgA [staleRec, closedRec] staleRec (by decide) rfl rfl
    (by decide) rfl (by decide) rfl

end AttendPro

namespace AttendPro

/-! ### C8: per-record best-effort sweep -/

/-- C8. The sweep is per-record best-effort: whatever rows the backend
rejects (`e.updOk` is arbitrary here, so any other record's update may
fail), every open eligible record whose own update succeeds still gets
force-closed, no row is ever dropped, and the sweep itself always returns
(it propagates no per-record failure). -/
theorem scrub_best_effort (e : ScrubEnv) (config : SystemConfig) (store : Store)
    (r : AttendanceRecord)
    (hnd : NodupIds store) (hcfg : e.config = some config)
    (hmem : r ∈ store) (hopen : r.clockOut = none)
    (helig : scrubShouldClose e (parseHM config.officialClockOutTime).1
      (parseHM config.officialClockOutTime).2 r = true)
    (hupd : e.updOk r = true) :
    scrubClose e (parseHM config.officialClockOutTime).1
        (parseHM config.officialClockOutTime).2 r r ∈ runAutoClockOutScrub e store
    ∧ (runAutoClockOutScrub e store).length = store.length := by
  constructor
  · rw [runScrub_eq_map e store hnd]
    have hact : scrubAction e r = scrubClose e (parseHM config.officialClockOutTime).1
        (parseHM config.officialClockOutTime).2 r r := by
      simp only [scrubAction, hcfg]
      rw [hopen]
      simp [helig, hupd]
    rw [← hact]
    exact List.mem_map_of_mem (scrubAction e) hmem
  · rw [runScrub_eq_map e store hnd]
    exact List.length_map store (scrubAction e)

/-- Witness for C8: in a table where the other row's update is rejected,
the stale record is still closed and both rows survive. -/
theorem scrub_best_effort_witness :
    scrubClose
        { config := some cfgA, now := ⟨"2024-03-11", 68400000⟩,
          updOk := fun r2 => decide (r2.id = "att_1") }
        (parseHM cfgA.officialClockOutTime).1 (parseHM cfgA.officialClockOutTime).2
        staleRec staleRec ∈
      runAutoClockOutScrub
        { config := some cfgA, now := ⟨"2024-03-11", 68400000⟩,
          updOk := fun r2 => decide (r2.id = "att_1") }
        [staleRec, closedRec]
    ∧ (runAutoClockOutScrub
        { config := some cfgA, now := ⟨"2024-03-11", 68400000⟩,
          updOk := fun r2 => decide (r2.id = "att_1") }
        [staleRec, closedRec]).length = ([staleRec, closedRec] : Store).length :=
  scrub_best_effort
    { config := some cfgA, now := ⟨"2024-03-11", 68400000⟩,
      updOk := fun r2 => decide (r2.id = "att_1") }
    cfgA [staleRec, closedRec] staleRec (by decide) rfl (by decide) rfl (by decide) (by decide)

/-! ### C2: closure is terminal (corrected) -/

/-- Counterexample input to C2 as stated: `finalizeAttendance` invoked
again for a user whose current-day record is already CLOSED (fingerprint
path, privileged role so every precondition passes). -/
def secondCallInput : Input :=
  { user := { id := "u2", name := "Carol", role := .BOSS, managerId := none }
    locations := [zoneA]
    currentRecord := some closedRec
    isEnrolling := false
    masterSelfie := some "master"
    selfieBase64 := ""
    oracle := none
    config := some cfgA
    pos := some (10, 20)
    calculateDistance := fun _ _ _ _ => 0
    today := "2024-03-11"
    now := ⟨"2024-03-11", 65100000⟩
    nowMs := 1710176700000 }

/-- C2 as stated is false: a repeated `finalizeAttendance` call on a day
whose record is already CLOSED (clockOut 17:00) succeeds and overwrites
`clockOut` with the new call's timestamp (18:05). -/
theorem closed_terminal_counterexample :
    (finalizeAttendance secondCallInput).result =
      .ok { closedRec with clockOut := some ⟨"2024-03-11", 65100000⟩ }
    ∧ ({ closedRec with clockOut := some ⟨"2024-03-11", 65100000⟩ } : AttendanceRecord).clockOut
        ≠ closedRec.clockOut := by
  constructor
  · decide
  · decide

/-- C2 amended. Once a record has a non-null `clockOut`: (a) the
reconciler sweep never clears or changes it (it only selects rows with
`clockOut` unset), so auto clock-out treats CLOSED as terminal; but (b) a
direct repeated `finalizeAttendance` call for that user and day — which
the rendered UI no longer offers once the record is closed — does
overwrite `clockOut` with the new call's wall clock. -/
theorem closed_terminal_amended :
    (∀ (e : ScrubEnv) (store : Store) (r : AttendanceRecord) (c : DateTime),
      NodupIds store → r ∈ store → r.clockOut = some c →
      r ∈ runAutoClockOutScrub e store)
    ∧ (∀ (i : Input) (v : Option VerifResult) (p : ℚ × ℚ) (cur : AttendanceRecord)
        (c : DateTime),
      runVerification i = .ok v → i.pos = some p →
      ((i.locations.find? fun loc =>
        decide (i.calculateDistance p.1 p.2 loc.latitude loc.longitude ≤ loc.radius)).isNone
        && decide (i.user.role = UserRole.EMPLOYEE)) = false →
      i.currentRecord = some cur → cur.clockOut = some c →
      (finalizeAttendance i).result = .ok { cur with clockOut := some i.now }) := by
  constructor
  · intro e store r c hnd hmem hclosed
    rw [runScrub_eq_map e store hnd]
    have : scrubAction e r = r := scrubAction_closed e r c hclosed
    rw [← this]
    exact List.mem_map_of_mem (scrubAction e) hmem
  · intro i v p cur c hv hpos hguard hcur _
    rw [finalize_update hv hpos hguard hcur]

/-- Witness for C2 (amended): the closed record of the concrete table
survives the sweep untouched, and the concrete repeated call overwrites. -/
theorem closed_terminal_amended_witness :
    closedRec ∈ runAutoClockOutScrub scrubEnvA [staleRec, closedRec]
    ∧ (finalizeAttendance secondCallInput).result =
        .ok { closedRec with clockOut := some ⟨"2024-03-11", 65100000⟩ } :=
  ⟨closed_terminal_amended.1 scrubEnvA [staleRec, closedRec] closedRec
      ⟨"2024-03-11", 61200000⟩ (by decide) (by decide) rfl,
   closed_terminal_amended.2 secondCallInput none (10, 20) closedRec
      ⟨"2024-03-11", 61200000⟩ (runVerification_noSelfie rfl) rfl (by decide) rfl rfl⟩

end AttendPro

namespace AttendPro

/-! ### What one interaction does to the attendance table -/

theorem applyEffects_append (s : Store) (xs ys : List Effect) :
    applyEffects s (xs ++ ys) = applyEffects (applyEffects s xs) ys :=
  List.foldl_append _ _ _ _

theorem applyEffects_enroll (s : Store) (i : Input) :
    applyEffects s (enrollEffectsOf i) = s := by
  unfold enrollEffectsOf applyEffects
  split
  · rfl
  · rfl

theorem applyEffects_late (s : Store) (i : Input) :
    applyEffects s (lateEffectsOf i) = s := by
  unfold lateEffectsOf applyEffects
  split
  · rfl
  · rfl

/-- The attendance table after one `finalizeAttendance` call: unchanged on
error, otherwise `db.upsert` of the returned record. -/
theorem applyEffects_finalize (i : Input) (s : Store) :
    applyEffects s (finalizeAttendance i).effects =
      match (finalizeAttendance i).result with
      | .error _ => s
      | .ok r => upsert s r := by
  rcases hrv : runVerification i with e0 | v
  · simp [finalizeAttendance, hrv, applyEffects]
  · rcases hpos : i.pos with _ | p
    · simp [finalizeAttendance, hrv, hpos, applyEffects]
    · rcases hguard : ((i.locations.find? fun loc =>
          decide (i.calculateDistance p.1 p.2 loc.latitude loc.longitude ≤ loc.radius)).isNone
          && decide (i.user.role = UserRole.EMPLOYEE)) with _ | _
      · rcases hcur : i.currentRecord with _ | cur
        · rw [finalize_create hrv hpos hguard hcur]
          show applyEffects s (enrollEffectsOf i ++ [Effect.upsertAttendance (createdRecord i p)]
            ++ lateEffectsOf i) = upsert s (createdRecord i p)
          rw [applyEffects_append, applyEffects_append, applyEffects_enroll]
          show applyEffects (upsert s (createdRecord i p)) (lateEffectsOf i) = _
          rw [applyEffects_late]
        · rw [finalize_update hrv hpos hguard hcur]
          show applyEffects s (enrollEffectsOf i
            ++ [Effect.upsertAttendance { cur with clockOut := some i.now }]) =
            upsert s { cur with clockOut := some i.now }
          rw [applyEffects_append, applyEffects_enroll]
          rfl
      · rw [finalize_geoError hrv hpos hguard]
        rfl

/-- Ways a call can return a record: a fresh creation (no current-day
record was found) or the clock-out update of the found record. -/
theorem finalize_ok_cases (i : Input) (r : AttendanceRecord)
    (h : (finalizeAttendance i).result = .ok r) :
    (∃ p, i.pos = some p ∧ i.currentRecord = none ∧ r = createdRecord i p)
    ∨ (∃ cur, i.currentRecord = some cur ∧ r = { cur with clockOut := some i.now }) := by
  rcases hrv : runVerification i with e0 | v
  · rw [show finalizeAttendance i = ⟨.error e0, []⟩ by simp [finalizeAttendance, hrv]] at h
    exact Except.noConfusion h
  · rcases hpos : i.pos with _ | p
    · rw [show finalizeAttendance i = ⟨.error .locationUnavailable, []⟩ by
        simp [finalizeAttendance, hrv, hpos]] at h
      exact Except.noConfusion h
    · rcases hguard : ((i.locations.find? fun loc =>
          decide (i.calculateDistance p.1 p.2 loc.latitude loc.longitude ≤ loc.radius)).isNone
          && decide (i.user.role = UserRole.EMPLOYEE)) with _ | _
      · rcases hcur : i.currentRecord with _ | cur
        · rw [finalize_create hrv hpos hguard hcur] at h
          refine Or.inl ⟨p, rfl, rfl, ?_⟩
          injection h with h2
          exact h2.symm
        · rw [finalize_update hrv hpos hguard hcur] at h
          refine Or.inr ⟨cur, rfl, ?_⟩
          injection h with h2
          exact h2.symm
      · rw [finalize_geoError hrv hpos hguard] at h
        exact Except.noConfusion h

end AttendPro

namespace AttendPro

/-! ### Counting rows per (userId, date) -/

theorem lookup_count_zero {store : Store} {uid d : String}
    (h : lookupToday store uid d = none) : countUserDate store uid d = 0 := by
  apply List.countP_eq_zero.2
  intro a ha
  exact List.find?_eq_none.1 h a ha

theorem countP_id_le_one (store : Store) (hnd : NodupIds store) (x : String) :
    store.countP (fun e => decide (e.id = x)) ≤ 1 := by
  have h1 : (store.map (fun r => r.id)).countP (fun y => decide (y = x)) =
      store.countP (fun e => decide (e.id = x)) := List.countP_map _ _ _
  rw [← h1]
  have h2 : (store.map (fun r => r.id)).countP (fun y => decide (y = x)) =
      (store.map (fun r => r.id)).count x := by
    rw [List.count_eq_countP]
    apply List.countP_congr
    intro y _
    simp
  rw [h2]
  exact List.nodup_iff_count_le_one.1 hnd x

theorem upsert_fresh_uniq (store : Store) (rec : AttendanceRecord) (hnd : NodupIds store)
    (h0 : countUserDate store rec.userId rec.date = 0)
    (huniq : ∀ uid d, countUserDate store uid d ≤ 1) :
    ∀ uid d, countUserDate (upsert store rec) uid d ≤ 1 := by
  intro uid d
  have hz : (decide (rec.userId = uid) && decide (rec.date = d)) = true →
      ∀ a ∈ store, ¬ ((decide (a.userId = uid) && decide (a.date = d)) = true) := by
    intro hp a ha
    rw [Bool.and_eq_true] at hp
    have h1 := of_decide_eq_true hp.1
    have h2 := of_decide_eq_true hp.2
    rw [← h1, ← h2]
    exact List.countP_eq_zero.1 h0 a ha
  by_cases hany : store.any (fun r => decide (r.id = rec.id)) = true
  · unfold upsert
    rw [if_pos hany]
    unfold countUserDate
    rw [List.countP_map]
    by_cases hp : (decide (rec.userId = uid) && decide (rec.date = d)) = true
    · refine le_trans (List.countP_mono_left fun e he hpe => ?_) (countP_id_le_one store hnd rec.id)
      by_cases hc : e.id = rec.id
      · exact decide_eq_true hc
      · exfalso
        simp only [Function.comp, hc, if_neg, if_false] at hpe
        exact hz hp e he hpe
    · refine le_trans (List.countP_mono_left fun e he hpe => ?_) (huniq uid d)
      by_cases hc : e.id = rec.id
      · exfalso
        simp only [Function.comp, hc, if_pos, if_true] at hpe
        exact hp hpe
      · simpa only [Function.comp, hc, if_neg, if_false] using hpe
  · unfold upsert
    rw [if_neg hany]
    unfold countUserDate
    rw [List.countP_append]
    by_cases hp : (decide (rec.userId = uid) && decide (rec.date = d)) = true
    · have hzero : store.countP (fun r => decide (r.userId = uid) && decide (r.date = d)) = 0 :=
        List.countP_eq_zero.2 (hz hp)
      rw [hzero, List.countP_singleton, hp]
      simp
    · have hone : List.countP (fun r => decide (r.userId = uid) && decide (r.date = d))
          [rec] = 0 := by
        rw [List.countP_singleton]
        simp only [hp]
        rfl
      rw [hone]
      simpa using huniq uid d

theorem upsert_same_counts (store : Store) (rec cur : AttendanceRecord) (hnd : NodupIds store)
    (hmem : cur ∈ store) (hid : rec.id = cur.id)
    (hu : rec.userId = cur.userId) (hd : rec.date = cur.date) :
    ∀ uid d, countUserDate (upsert store rec) uid d = countUserDate store uid d := by
  intro uid d
  have hany : store.any (fun r => decide (r.id = rec.id)) = true :=
    List.any_eq_true.2 ⟨cur, hmem, by simp [hid]⟩
  unfold upsert
  rw [if_pos hany]
  unfold countUserDate
  rw [List.countP_map]
  apply List.countP_congr
  intro e he
  by_cases hc : e.id = rec.id
  · have he_cur : e = cur := nodupIds_inj hnd e he cur hmem (by rw [hc, hid])
    subst he_cur
    simp only [Function.comp, hc, if_pos, if_true, hu, hd]
  · simp only [Function.comp, hc, if_neg, if_false]

theorem upsert_nodupIds (store : Store) (rec : AttendanceRecord) (hnd : NodupIds store) :
    NodupIds (upsert store rec) := by
  by_cases hany : store.any (fun r => decide (r.id = rec.id)) = true
  · unfold upsert
    rw [if_pos hany]
    show (List.map (fun r => r.id) (store.map fun r => if r.id = rec.id then rec else r)).Nodup
    rw [List.map_map]
    have hids : store.map ((fun r => r.id) ∘ fun r => if r.id = rec.id then rec else r) =
        store.map (fun r => r.id) := by
      apply List.map_congr_left
      intro e _
      by_cases hc : e.id = rec.id
      · show (if e.id = rec.id then rec else e).id = e.id
        rw [if_pos hc]
        exact hc.symm
      · show (if e.id = rec.id then rec else e).id = e.id
        rw [if_neg hc]
    rw [hids]
    exact hnd
  · unfold upsert
    rw [if_neg hany]
    show (List.map (fun r => r.id) (store ++ [rec])).Nodup
    rw [List.map_append]
    refine List.Nodup.append hnd (List.nodup_singleton _) ?_
    intro x hx hx2
    rcases List.mem_map.1 hx with ⟨e, he, hedef⟩
    have hxid : x = rec.id := by simpa using hx2
    apply hany
    apply List.any_eq_true.2
    exact ⟨e, he, decide_eq_true (by rw [hedef, hxid])⟩

theorem upsert_length_of_mem (store : Store) (rec cur : AttendanceRecord)
    (hmem : cur ∈ store) (hid : rec.id = cur.id) :
    (upsert store rec).length = store.length := by
  have hany : store.any (fun r => decide (r.id = rec.id)) = true :=
    List.any_eq_true.2 ⟨cur, hmem, by simp [hid]⟩
  unfold upsert
  rw [if_pos hany]
  exact List.length_map _ _

end AttendPro

namespace AttendPro

theorem scrubAction_userId (e : ScrubEnv) (r : AttendanceRecord) :
    (scrubAction e r).userId = r.userId := by
  rcases he : e.config with _ | c
  · simp [scrubAction, he]
  · simp only [scrubAction, he]
    split
    · rfl
    · rfl

theorem scrubAction_date (e : ScrubEnv) (r : AttendanceRecord) :
    (scrubAction e r).date = r.date := by
  rcases he : e.config with _ | c
  · simp [scrubAction, he]
  · simp only [scrubAction, he]
    split
    · rfl
    · rfl

theorem scrub_counts (e : ScrubEnv) (store : Store) (hnd : NodupIds store) :
    ∀ uid d, countUserDate (runAutoClockOutScrub e store) uid d = countUserDate store uid d := by
  intro uid d
  rw [runScrub_eq_map e store hnd]
  unfold countUserDate
  rw [List.countP_map]
  apply List.countP_congr
  intro r _
  show ((decide ((scrubAction e r).userId = uid) && decide ((scrubAction e r).date = d)) = true)
    ↔ _
  rw [scrubAction_userId, scrubAction_date]

theorem clockInStep_cases (e : Input) (store : Store) :
    clockInStep e store =
      match (finalizeAttendance
          { e with currentRecord := lookupToday store e.user.id e.today }).result with
      | .error _ => store
      | .ok r => upsert store r :=
  applyEffects_finalize _ store

theorem clockInStep_inv (e : Input) (store : Store)
    (hnd : NodupIds store) (huniq : ∀ uid d, countUserDate store uid d ≤ 1) :
    NodupIds (clockInStep e store) ∧
      ∀ uid d, countUserDate (clockInStep e store) uid d ≤ 1 := by
  rcases hres : (finalizeAttendance
      { e with currentRecord := lookupToday store e.user.id e.today }).result with err | r
  · have hstep : clockInStep e store = store := by
      rw [clockInStep_cases, hres]
    rw [hstep]
    exact ⟨hnd, huniq⟩
  · have hstep : clockInStep e store = upsert store r := by
      rw [clockInStep_cases, hres]
    rw [hstep]
    rcases finalize_ok_cases _ r hres with ⟨p, _, hcurnone, hrdef⟩ | ⟨cur, hcureq, hrdef⟩
    · have hlook : lookupToday store e.user.id e.today = none := hcurnone
      have h0 : countUserDate store r.userId r.date = 0 := by
        have hu : r.userId = e.user.id := by rw [hrdef]; rfl
        have hd : r.date = e.today := by rw [hrdef]; rfl
        rw [hu, hd]
        exact lookup_count_zero hlook
      exact ⟨upsert_nodupIds store r hnd, upsert_fresh_uniq store r hnd h0 huniq⟩
    · have hlook : lookupToday store e.user.id e.today = some cur := hcureq
      have hmem : cur ∈ store := List.mem_of_find?_eq_some hlook
      refine ⟨upsert_nodupIds store r hnd, fun uid d => ?_⟩
      rw [upsert_same_counts store r cur hnd hmem (by rw [hrdef]) (by rw [hrdef])
        (by rw [hrdef])]
      exact huniq uid d

theorem reachable_inv (s : Store) (h : Reachable s) :
    NodupIds s ∧ ∀ uid d, countUserDate s uid d ≤ 1 := by
  induction h with
  | init =>
    refine ⟨List.nodup_nil, fun uid d => ?_⟩
    show List.countP _ [] ≤ 1
    simp
  | clockIn e _ ih => exact clockInStep_inv e _ ih.1 ih.2
  | scrub e _ ih =>
    refine ⟨?_, fun uid d => ?_⟩
    · rw [runScrub_eq_map e _ ih.1]
      exact nodupIds_scrub e _ ih.1
    · rw [scrub_counts e _ ih.1]
      exact ih.2 uid d

/-! ### C1: at most one record per (user, date) -/

/-- C1. In every reachable state of the attendance table there is at most
one record per `(userId, date)`; and a clock-in interaction started while
a record for `(user, today)` already exists adds no row at all (the call
flows into the clock-out update of the existing row, or fails). -/
theorem per_user_per_date_unique :
    (∀ s : Store, Reachable s → ∀ uid d, countUserDate s uid d ≤ 1)
    ∧ (∀ (e : Input) (s : Store), Reachable s →
        (lookupToday s e.user.id e.today).isSome →
        (clockInStep e s).length = s.length) := by
  constructor
  · intro s h
    exact (reachable_inv s h).2
  · intro e s h hsome
    rcases Option.isSome_iff_exists.1 hsome with ⟨cur, hlook⟩
    rcases hres : (finalizeAttendance
        { e with currentRecord := lookupToday s e.user.id e.today }).result with err | r
    · rw [clockInStep_cases, hres]
    · rw [clockInStep_cases, hres]
      rcases finalize_ok_cases _ r hres with ⟨p, _, hcurnone, _⟩ | ⟨cur2, hcureq, hrdef⟩
      · have : lookupToday s e.user.id e.today = none := hcurnone
        rw [hlook] at this
        exact Option.noConfusion this
      · have hlook2 : lookupToday s e.user.id e.today = some cur2 := hcureq
        have hmem : cur2 ∈ s := List.mem_of_find?_eq_some hlook2
        exact upsert_length_of_mem s r cur2 hmem (by rw [hrdef])

/-- Witness for C1 on concrete reachable states: after one clock-in on the
empty table, every `(user, date)` count is at most 1 (checked at the
created row's own key), and a clock-in repeated in the resulting state
adds no row. -/
theorem per_user_per_date_unique_witness :
    countUserDate (clockInStep baseInput []) "u1" "2024-03-11" ≤ 1
    ∧ (clockInStep baseInput (clockInStep baseInput [])).length =
        (clockInStep baseInput []).length :=
  ⟨per_user_per_date_unique.1 (clockInStep baseInput []) (Reachable.clockIn baseInput
      Reachable.init) "u1" "2024-03-11",
   per_user_per_date_unique.2 baseInput (clockInStep baseInput [])
      (Reachable.clockIn baseInput Reachable.init) (by decide)⟩

end AttendPro

namespace AttendPro

/-! ### Injectivity of the generated record ids (`att_` + decimal ms) -/

/-- Value of a little-endian decimal digit list. -/
def digitsVal : List Nat → Nat
  | [] => 0
  | d :: ds => d + 10 * digitsVal ds

theorem natDigitsRev_val : ∀ fuel n, n < fuel → digitsVal (natDigitsRev fuel n) = n := by
  intro fuel
  induction fuel with
  | zero => intro n h; exact absurd h (Nat.not_lt_zero n)
  | succ fuel ih =>
    intro n h
    unfold natDigitsRev
    by_cases h10 : n < 10
    · rw [if_pos h10]
      show n + 10 * digitsVal [] = n
      simp [digitsVal]
    · rw [if_neg h10]
      show n % 10 + 10 * digitsVal (natDigitsRev fuel (n / 10)) = n
      have hdiv : n / 10 < fuel := by
        have h1 : n / 10 < n := Nat.div_lt_self (by omega) (by omega)
        omega
      rw [ih (n / 10) hdiv]
      exact Nat.mod_add_div n 10

theorem natDigitsRev_lt : ∀ fuel n d, d ∈ natDigitsRev fuel n → d < 10 := by
  intro fuel
  induction fuel with
  | zero => intro n d h; exact absurd h (List.not_mem_nil d)
  | succ fuel ih =>
    intro n d h
    unfold natDigitsRev at h
    by_cases h10 : n < 10
    · rw [if_pos h10] at h
      rw [List.mem_singleton.1 h]
      exact h10
    · rw [if_neg h10] at h
      rcases List.mem_cons.1 h with h1 | h2
      · rw [h1]
        exact Nat.mod_lt n (by omega)
      · exact ih (n / 10) d h2

theorem digitChar_inj_below_ten :
    ∀ a < 10, ∀ b < 10, Nat.digitChar a = Nat.digitChar b → a = b := by decide

theorem map_digitChar_inj : ∀ l1 l2 : List Nat, (∀ d ∈ l1, d < 10) → (∀ d ∈ l2, d < 10) →
    l1.map Nat.digitChar = l2.map Nat.digitChar → l1 = l2 := by
  intro l1
  induction l1 with
  | nil =>
    intro l2 _ _ h
    cases l2 with
    | nil => rfl
    | cons b bs => exact absurd h (by simp)
  | cons a as ih =>
    intro l2 h1 h2 h
    cases l2 with
    | nil => exact absurd h (by simp)
    | cons b bs =>
      simp only [List.map_cons, List.cons.injEq] at h
      have ha : a = b := digitChar_inj_below_ten a (h1 a (List.mem_cons_self a as)) b
        (h2 b (List.mem_cons_self b bs)) h.1
      have hrest : as = bs := ih bs (fun d hd => h1 d (List.mem_cons_of_mem a hd))
        (fun d hd => h2 d (List.mem_cons_of_mem b hd)) h.2
      rw [ha, hrest]

theorem natToString_inj {m n : Nat} (h : natToString m = natToString n) : m = n := by
  unfold natToString at h
  have hdata : (natDigitsRev (m + 1) m).reverse.map Nat.digitChar =
      (natDigitsRev (n + 1) n).reverse.map Nat.digitChar := congrArg String.data h
  have hrev : (natDigitsRev (m + 1) m).reverse = (natDigitsRev (n + 1) n).reverse :=
    map_digitChar_inj _ _
      (fun d hd => natDigitsRev_lt (m + 1) m d (List.mem_reverse.1 hd))
      (fun d hd => natDigitsRev_lt (n + 1) n d (List.mem_reverse.1 hd)) hdata
  have hdig : natDigitsRev (m + 1) m = natDigitsRev (n + 1) n := List.reverse_inj.1 hrev
  have := natDigitsRev_val (m + 1) m (Nat.lt_succ_self m)
  rw [hdig, natDigitsRev_val (n + 1) n (Nat.lt_succ_self n)] at this
  exact this.symm

theorem att_id_inj {m n : Nat} (h : ("att_" ++ natToString m) = ("att_" ++ natToString n)) :
    m = n := by
  apply natToString_inj
  apply String.ext
  have := congrArg String.data h
  rw [String.data_append, String.data_append] at this
  exact List.append_cancel_left this

end AttendPro

namespace AttendPro

theorem upsert_mem_self (store : Store) (rec : AttendanceRecord) : rec ∈ upsert store rec := by
  by_cases hany : store.any (fun r => decide (r.id = rec.id)) = true
  · unfold upsert
    rw [if_pos hany]
    rcases List.any_eq_true.1 hany with ⟨e, he, hid⟩
    exact List.mem_map.2 ⟨e, he, if_pos (of_decide_eq_true hid)⟩
  · unfold upsert
    rw [if_neg hany]
    exact List.mem_append_right store (List.mem_singleton_self rec)

theorem upsert_mem_other {store : Store} {rec r : AttendanceRecord}
    (hmem : r ∈ store) (hne : r.id ≠ rec.id) : r ∈ upsert store rec := by
  by_cases hany : store.any (fun r2 => decide (r2.id = rec.id)) = true
  · unfold upsert
    rw [if_pos hany]
    exact List.mem_map.2 ⟨r, hmem, if_neg hne⟩
  · unfold upsert
    rw [if_neg hany]
    exact List.mem_append_left _ hmem

/-! ### C10: cross-user clock-ins (corrected) -/

/-- A second user clocking in at the very same `Date.now()` millisecond as
`baseInput`. -/
def carolBossInput : Input :=
  { baseInput with user := { id := "u2", name := "Carol", role := .BOSS, managerId := none } }

/-- C10 as stated is false: two distinct users clocking in at the same
instant get the same generated id `att_<ms>`, and the second upsert
replaces the first user's record, which is no longer stored. -/
theorem concurrent_clockin_counterexample :
    clockInStep baseInput [] = [createdRecord baseInput (10, 20)]
    ∧ clockInStep carolBossInput (clockInStep baseInput []) =
        [createdRecord carolBossInput (10, 20)]
    ∧ createdRecord baseInput (10, 20) ∉
        clockInStep carolBossInput (clockInStep baseInput [])
    ∧ carolBossInput.user.id ≠ baseInput.user.id := by decide

/-- C10 amended. Two distinct users clocking in, each creating the day's
record, touch disjoint records whenever their `Date.now()` readings
differ: the generated ids are distinct, and both records are present
afterwards — neither write replaces the other. (At the very same
millisecond the ids collide and the second write replaces the first; see
the counterexample.) -/
theorem concurrent_clockin_amended (eA eB : Input) (s : Store) (rA rB : AttendanceRecord)
    (hAres : (finalizeAttendance
      { eA with currentRecord := lookupToday s eA.user.id eA.today }).result = .ok rA)
    (hAcur : lookupToday s eA.user.id eA.today = none)
    (hBres : (finalizeAttendance
      { eB with currentRecord :=
          lookupToday (clockInStep eA s) eB.user.id eB.today }).result = .ok rB)
    (hBcur : lookupToday (clockInStep eA s) eB.user.id eB.today = none)
    (hms : eA.nowMs ≠ eB.nowMs) :
    rA.id ≠ rB.id
    ∧ rA ∈ clockInStep eB (clockInStep eA s)
    ∧ rB ∈ clockInStep eB (clockInStep eA s) := by
  have hrAdef : ∃ p, rA = createdRecord
      { eA with currentRecord := lookupToday s eA.user.id eA.today } p := by
    rcases finalize_ok_cases _ rA hAres with ⟨p, _, _, hdef⟩ | ⟨cur, hcur, _⟩
    · exact ⟨p, hdef⟩
    · have hcur2 : lookupToday s eA.user.id eA.today = some cur := hcur
      rw [hAcur] at hcur2
      exact Option.noConfusion hcur2
  have hrBdef : ∃ p, rB = createdRecord
      { eB with currentRecord := lookupToday (clockInStep eA s) eB.user.id eB.today } p := by
    rcases finalize_ok_cases _ rB hBres with ⟨p, _, _, hdef⟩ | ⟨cur, hcur, _⟩
    · exact ⟨p, hdef⟩
    · have hcur2 : lookupToday (clockInStep eA s) eB.user.id eB.today = some cur := hcur
      rw [hBcur] at hcur2
      exact Option.noConfusion hcur2
  rcases hrAdef with ⟨pA, hrAdef⟩
  rcases hrBdef with ⟨pB, hrBdef⟩
  have hrAid : rA.id = "att_" ++ natToString eA.nowMs := by rw [hrAdef]; rfl
  have hrBid : rB.id = "att_" ++ natToString eB.nowMs := by rw [hrBdef]; rfl
  have hne : rA.id ≠ rB.id := by
    rw [hrAid, hrBid]
    intro hc
    exact hms (att_id_inj hc)
  have hstepA : clockInStep eA s = upsert s rA := by rw [clockInStep_cases, hAres]
  have hstepB : clockInStep eB (clockInStep eA s) = upsert (clockInStep eA s) rB := by
    rw [clockInStep_cases, hBres]
  refine ⟨hne, ?_, ?_⟩
  · rw [hstepB]
    apply upsert_mem_other ?_ hne
    rw [hstepA]
    exact upsert_mem_self s rA
  · rw [hstepB]
    exact upsert_mem_self _ rB

/-- A second user clocking in one second after `baseInput`. -/
def carolLaterInput : Input :=
  { carolBossInput with now := ⟨"2024-03-11", 32402000⟩, nowMs := 1710150002000 }

/-- Witness for C10 (amended) at concrete inputs one millisecond-tick
apart: distinct ids, both records stored. -/
theorem concurrent_clockin_amended_witness :
    (createdRecord baseInput (10, 20)).id ≠ (createdRecord carolLaterInput (10, 20)).id
    ∧ createdRecord baseInput (10, 20) ∈
        clockInStep carolLaterInput (clockInStep baseInput [])
    ∧ createdRecord carolLaterInput (10, 20) ∈
        clockInStep carolLaterInput (clockInStep baseInput []) :=
  concurrent_clockin_amended baseInput carolLaterInput []
    (createdRecord baseInput (10, 20)) (createdRecord carolLaterInput (10, 20))
    (by decide) (by decide) (by decide) (by decide) (by decide)

end AttendPro
